import Mathlib

/-!
Verification development for the Careerone job scraper repository.

The repository contains five overlapping JavaScript implementations of the same
scraper.  The definitions below are a shallow embedding of the pieces of those
implementations that the checked properties speak about: the URL builder, the
seed-URL resolution, the listing-link extraction, the pagination decision, the
deduplication/budget loop, the JSON-LD salary mapping and the description
cleanup.  Each definition carries a comment naming the source location it
embeds.  JavaScript strings are modelled as Lean strings, JS regular-expression
operations on whitespace are modelled character by character, and the
WHATWG URLSearchParams serialization (application/x-www-form-urlencoded) is
modelled explicitly since the code relies on it.
-/

namespace Careerone

/-- The characters matched by the JS regex class backslash-s on ASCII input
(space, tab, newline, carriage return, vertical tab, form feed). -/
def isJsSpace (c : Char) : Bool :=
  c = ' ' || c = '\t' || c = '\n' || c = '\r' || c = '\x0b' || c = '\x0c'

/-- Model of String.prototype.trim: drop leading and trailing whitespace. -/
def jsTrimList (l : List Char) : List Char :=
  ((l.dropWhile isJsSpace).reverse.dropWhile isJsSpace).reverse

/-- Model of String.prototype.trim on Lean strings. -/
def jsTrim (s : String) : String :=
  String.mk (jsTrimList s.data)

/-- Model of replacing every maximal whitespace run by the single character
rep, i.e. the JS call s.replace with a global whitespace-run pattern.  The
Bool flag records whether the scanner is inside a run that has already been
replaced. -/
def replaceWsRunsAux (rep : Char) : Bool → List Char → List Char
  | _, [] => []
  | inRun, c :: rest =>
    if isJsSpace c then
      if inRun then replaceWsRunsAux rep true rest
      else rep :: replaceWsRunsAux rep true rest
    else c :: replaceWsRunsAux rep false rest

/-- Replace every maximal whitespace run by rep. -/
def replaceWsRuns (rep : Char) (l : List Char) : List Char :=
  replaceWsRunsAux rep false l

/-- Attempt to match the JS pattern whitespace-run, comma, whitespace-run at
the head of the list; on success return the remainder after the match. -/
def wsCommaWsSplit (l : List Char) : Option (List Char) :=
  match l with
  | [] => none
  | c :: _ =>
    if isJsSpace c then
      match l.dropWhile isJsSpace with
      | ',' :: r2 =>
        match r2 with
        | d :: _ => if isJsSpace d then some (r2.dropWhile isJsSpace) else none
        | [] => none
      | _ => none
    else none

/-- Model of the non-global JS replace of the first whitespace-comma-whitespace
match by a single space (used in the location slug computation). -/
def replaceFirstWsCommaWs : List Char → List Char
  | [] => []
  | c :: rest =>
    match wsCommaWsSplit (c :: rest) with
    | some r => ' ' :: r
    | none => c :: replaceFirstWsCommaWs rest

/-- Characters kept by the slug filter regex class a-z, 0-9 and hyphen. -/
def isSlugChar (c : Char) : Bool :=
  ('a' ≤ c && c ≤ 'z') || ('0' ≤ c && c ≤ '9') || c = '-'

/-- Model of String.prototype.toLowerCase on ASCII data. -/
def jsToLower (l : List Char) : List Char := l.map Char.toLower

/-- The location slug computed by buildStartUrl in src/src/main.js lines 92-98:
trim, lower-case, replace the first whitespace-comma-whitespace by a space,
replace whitespace runs by hyphens, strip everything outside a-z0-9-. -/
def slugify (loc : String) : String :=
  String.mk (((replaceWsRuns '-' (replaceFirstWsCommaWs (jsToLower (jsTrimList loc.data))))).filter isSlugChar)

/-- Characters serialized verbatim by URLSearchParams (the
application/x-www-form-urlencoded safe set). -/
def formSafeChar (c : Char) : Bool :=
  ('a' ≤ c && c ≤ 'z') || ('A' ≤ c && c ≤ 'Z') || ('0' ≤ c && c ≤ '9') ||
  c = '*' || c = '-' || c = '.' || c = '_'

/-- Upper-case hexadecimal digit for a value below 16. -/
def hexDigitChar (n : Nat) : Char :=
  if n < 10 then Char.ofNat ('0'.toNat + n) else Char.ofNat ('A'.toNat + (n - 10))

/-- Percent-escape of one byte. -/
def pctByte (b : Nat) : List Char :=
  ['%', hexDigitChar (b / 16), hexDigitChar (b % 16)]

/-- UTF-8 bytes of a character, as natural numbers. -/
def utf8Bytes (c : Char) : List Nat :=
  let n := c.toNat
  if n < 0x80 then [n]
  else if n < 0x800 then [0xC0 + n / 64, 0x80 + n % 64]
  else if n < 0x10000 then [0xE0 + n / 4096, 0x80 + (n / 64) % 64, 0x80 + n % 64]
  else [0xF0 + n / 262144, 0x80 + (n / 4096) % 64, 0x80 + (n / 64) % 64, 0x80 + n % 64]

/-- URLSearchParams serialization of one component: space becomes plus, safe
characters stay, everything else is percent-escaped per UTF-8 byte. -/
def formEncodeChar (c : Char) : List Char :=
  if c = ' ' then ['+']
  else if formSafeChar c then [c]
  else List.flatten ((utf8Bytes c).map pctByte)

/-- URLSearchParams serialization of a component string. -/
def formEncode (s : String) : String :=
  String.mk (List.flatten (s.data.map formEncodeChar))

/-- URLSearchParams.toString over an ordered list of key-value pairs. -/
def paramsToString (ps : List (String × String)) : String :=
  String.intercalate "&" (ps.map (fun kv => formEncode kv.1 ++ "=" ++ formEncode kv.2))

/-- Embeds buildStartUrl from the HTTP-Cheerio variant, src/src/main.js lines
90-111 (identical in src/unnamed/part_000 and part_002): a jobs/in-slug path
with keywords and category query parameters, each attached when the raw input
is a non-empty string, with trimmed values, serialized by URLSearchParams.
The ambient category captured by the closure is passed explicitly. -/
def buildStartUrl (kw loc category : String) : String :=
  let locationSlug := if loc = "" then "australia" else slugify loc
  let baseUrl := "https://www.careerone.com.au/jobs/in-" ++ locationSlug
  let params := (if kw = "" then [] else [("keywords", jsTrim kw)])
             ++ (if category = "" then [] else [("category", jsTrim category)])
  let qs := paramsToString params
  if qs = "" then baseUrl else baseUrl ++ "?" ++ qs

/-- Embeds buildStartUrl from the API-lite variant, src/unnamed/part_001 lines
42-51: latest-jobs path, slug without the character strip, keywords set through
the URL object (URLSearchParams serialization). -/
def buildStartUrlApiLite (kw loc : String) : String :=
  let locationSlug :=
    if loc = "" then "australia"
    else String.mk (replaceWsRuns '-' (jsToLower (jsTrimList loc.data)))
  let baseUrl := "https://www.careerone.com.au/latest-jobs/in-" ++ locationSlug
  if kw = "" then baseUrl else baseUrl ++ "?keywords=" ++ formEncode (jsTrim kw)

/-- The recognized fields of the actor input object, as destructured by every
variant (src/src/main.js lines 60-76, src/unnamed/part_001 lines 14-29 and the
corresponding destructurings in the other variants).  Optional string inputs
are Option String; absent fields are none.  The dedupe field mirrors a key
that may be present on the input object: no variant destructures it, hence it
appears nowhere else in this development. -/
structure ActorInput where
  keyword : String := ""
  location : String := ""
  category : String := ""
  resultsWantedRaw : Int := 100
  maxPagesRaw : Int := 10
  collectDetails : Bool := true
  startUrl : Option String := none
  startUrls : Option (List String) := none
  url : Option String := none
  dedupe : Option Bool := none
deriving DecidableEq

/-- The run options actually read out of the input by the HTTP-Cheerio variant:
RESULTS_WANTED and MAX_PAGES are clamped below by 1 (src/src/main.js lines
75-76; finite numeric raw values are assumed, so the Number.isFinite guard is
always taken). -/
structure RunOptions where
  keyword : String
  location : String
  category : String
  resultsWanted : Nat
  maxPages : Nat
  collectDetails : Bool
deriving DecidableEq

/-- Embeds the input destructuring and normalization of src/src/main.js lines
60-76: only the recognized keys are read. -/
def parseRunOptions (inp : ActorInput) : RunOptions :=
  { keyword := inp.keyword
    location := inp.location
    category := inp.category
    resultsWanted := (max 1 inp.resultsWantedRaw).toNat
    maxPages := (max 1 inp.maxPagesRaw).toNat
    collectDetails := inp.collectDetails }

/-- A trimmed optional string under the JS truthiness test used at
src/src/main.js lines 116-119: some value exactly when the field holds a
string whose trim is non-empty. -/
def trimmedNonEmpty : Option String → Option String
  | some u => if jsTrim u = "" then none else some (jsTrim u)
  | none => none

/-- Order-preserving deduplication, the JS spread of a Set built from a list:
keeps the first occurrence of each element. -/
def dedupAux : List String → List String → List String
  | [], _ => []
  | x :: xs, seenAcc =>
    if x ∈ seenAcc then dedupAux xs seenAcc else x :: dedupAux xs (x :: seenAcc)

/-- Order-preserving deduplication of a string list. -/
def dedupKeepFirst (l : List String) : List String := dedupAux l []

/-- The if-else chain of src/src/main.js lines 116-126: a direct url wins
over startUrl, which wins over a non-empty startUrls list (filtered to
non-blank entries and trimmed), which wins over the synthesized URL. -/
def rawInitialUrls (inp : ActorInput) : List String :=
  match trimmedNonEmpty inp.url with
  | some u => [u]
  | none =>
    match trimmedNonEmpty inp.startUrl with
    | some u => [u]
    | none =>
      match inp.startUrls with
      | some us =>
        if us = [] then [buildStartUrl inp.keyword inp.location inp.category]
        else (us.filter (fun u => jsTrim u ≠ "")).map jsTrim
      | none => [buildStartUrl inp.keyword inp.location inp.category]

/-- Embeds the seed-URL resolution of the HTTP-Cheerio variant,
src/src/main.js lines 113-133: the priority chain above, deduplicated, and
the run aborts with the fatal startup error message when the list is empty. -/
def resolveInitialUrls (inp : ActorInput) : Except String (List String) :=
  let deduped := dedupKeepFirst (rawInitialUrls inp)
  if deduped = [] then
    Except.error "No valid start URLs were provided or could be constructed."
  else Except.ok deduped

/-- Embeds the seed-URL assembly of the API-lite variant, src/unnamed/part_001
lines 53-57 (the simple Playwright variant in src/src/main.js lines 642-646 is
identical): startUrls, then startUrl, then url are all pushed onto one list,
with no deduplication, and the synthesized URL is used only when the list
stayed empty. -/
def initialUrlsApiLite (inp : ActorInput) : List String :=
  let fromStartUrls := match inp.startUrls with
    | some us => if us = [] then [] else us
    | none => []
  let fromStartUrl := match inp.startUrl with
    | some u => if u = "" then [] else [u]
    | none => []
  let fromUrl := match inp.url with
    | some u => if u = "" then [] else [u]
    | none => []
  let initial := fromStartUrls ++ fromStartUrl ++ fromUrl
  if initial = [] then [buildStartUrlApiLite inp.keyword inp.location] else initial

/-- Bool test that pat occurs as a contiguous substring of s, the semantics of
the CSS attribute substring selector and of String.prototype.includes. -/
def strContains (s pat : String) : Bool := decide (pat.data <:+: s.data)

/-- Bool test that s starts with pat, the semantics of
String.prototype.startsWith. -/
def strStarts (s pat : String) : Bool := decide (pat.data <+: s.data)

/-- Model of href.split at the question mark, first component: everything
before the first question mark. -/
def stripQuery (h : String) : String :=
  String.mk (h.data.takeWhile (fun c => c ≠ '?'))

/-- Embeds the per-anchor normalization in the LIST branch of the HTTP-Cheerio
variant, src/src/main.js lines 240-249: an empty href yields nothing, an href
starting with http is kept with its query stripped, a root-relative href is
prefixed with the site origin after query stripping, and any other href is
dropped. -/
def mapJobHref (h : String) : Option String :=
  if h = "" then none
  else if strStarts h "http" then some (stripQuery h)
  else if strStarts h "/" then some ("https://www.careerone.com.au" ++ stripQuery h)
  else none

/-- Embeds the job-link extraction of src/src/main.js lines 239-253: anchors
whose href attribute contains the jobview marker (the CSS attribute substring
selector), normalized by mapJobHref, nulls dropped, then deduplicated
preserving first occurrences.  The argument is the list of href attributes of
the anchors on the page. -/
def extractJobLinks (anchorHrefs : List String) : List String :=
  dedupKeepFirst (((anchorHrefs.filter (fun h => strContains h "/jobview/")).filterMap mapJobHref))

/-- Absolute form of a pagination href, src/src/main.js lines 313-315 and
326-328: an href starting with http is kept, otherwise the site origin is
prepended. -/
def absolutize (h : String) : String :=
  if strStarts h "http" then h else "https://www.careerone.com.au" ++ h

/-- The key of a raw query pair: everything before the first equals sign. -/
def pairKey (p : String) : String :=
  String.mk (p.data.takeWhile (fun c => c ≠ '='))

/-- Split a character list at every ampersand, the query-pair decomposition
of a search string. -/
def splitOnAmp : List Char → List (List Char)
  | [] => [[]]
  | c :: rest =>
    let r := splitOnAmp rest
    if c = '&' then [] :: r
    else (c :: r.headD []) :: r.tail

/-- Join query pairs with ampersands, the serialization inverse of the
decomposition above. -/
def joinAmp : List String → String
  | [] => ""
  | [p] => p
  | p :: rest => p ++ "&" ++ joinAmp rest

/-- Model of the WHATWG URL operation used by the page fallback: parse u, set
the page search parameter to n, reserialize.  Pairs other than page are kept
verbatim; page is replaced in place when present and appended otherwise.
Exotic re-encodings performed by a real URL object on unusual inputs are not
modelled; on the URLs this crawler constructs the two agree. -/
def setPageParam (u : String) (n : Nat) : String :=
  let base := String.mk (u.data.takeWhile (fun c => c ≠ '?'))
  let qsChars := (u.data.dropWhile (fun c => c ≠ '?')).drop 1
  let pairs := if qsChars = [] then [] else (splitOnAmp qsChars).map String.mk
  let pagePair := "page=" ++ toString n
  let pairs2 :=
    if pairs.any (fun p => pairKey p = "page")
    then pairs.map (fun p => if pairKey p = "page" then pagePair else p)
    else pairs ++ [pagePair]
  base ++ "?" ++ joinAmp pairs2

/-- The pagination-relevant facts the LIST handler reads from a result page:
the href attributes of all anchors, the href of an anchor with the next
relation (none when no such anchor exists), and the href of the first anchor
whose visible text matches the next-synonym patterns (none when no such
anchor exists).  Anchor text itself is not modelled, so the second and third
components stand for the outcome of those two DOM scans. -/
structure PageView where
  anchorHrefs : List String := []
  relNextHref : Option String := none
  textNextHref : Option String := none
deriving DecidableEq

/-- JS truthiness on an optional string attribute value: an absent attribute
and an empty string are both falsy. -/
def truthyStr : Option String → Option String
  | some s => if s = "" then none else some s
  | none => none

/-- Embeds the pagination decision of the HTTP-Cheerio variant,
src/src/main.js lines 306-354: nothing is produced once saved is at least
RESULTS_WANTED or pageNo is at least MAX_PAGES; otherwise the next-relation
href wins, then the next-text href, then the constructed fallback that sets
the page parameter to pageNo plus one, kept only when it differs from the
current URL. -/
def nextPageCheerio (pv : PageView) (currentUrl : String) (pageNo saved rw mp : Nat) :
    Option String :=
  if saved < rw ∧ pageNo < mp then
    match truthyStr pv.relNextHref with
    | some h => some (absolutize h)
    | none =>
      match truthyStr pv.textNextHref with
      | some h => some (absolutize h)
      | none =>
        let candidate := setPageParam currentUrl (pageNo + 1)
        if candidate ≠ currentUrl then some candidate else none
  else none

/-- Embeds the pagination decision of the simple Playwright variant,
src/src/main.js lines 712-729: when a next element is present on the page, the
URL with the page parameter set to pageNo plus one is enqueued without any
comparison against the current URL. -/
def nextPagePlaywrightSimple (hasNextElement : Bool) (currentUrl : String)
    (pageNo saved rw mp : Nat) : Option String :=
  if saved < rw ∧ pageNo < mp then
    if hasNextElement then some (setPageParam currentUrl (pageNo + 1)) else none
  else none

/-- The run-scoped mutable state shared by the handlers: the saved-record
count and the set of seen URLs (src/src/main.js lines 145-147). -/
structure CrawlState where
  saved : Nat
  seen : List String
deriving DecidableEq

/-- Result of one LIST-page handler invocation: the updated state, the detail
URLs enqueued, the number of records pushed to the sink by this invocation,
and the enqueued next list page, when any. -/
structure ListStepResult where
  state : CrawlState
  enqueuedDetails : List String
  pushedRecords : Nat
  nextListPage : Option (Nat × String)
deriving DecidableEq

/-- Embeds the LIST branch of the HTTP-Cheerio request handler,
src/src/main.js lines 226-360: skip when the target is reached; extract the
unique job links; return early (no pagination) when none; otherwise slice to
the remaining budget, drop already-seen links, record the survivors as seen,
and either enqueue them as DETAIL requests or push them directly and count
them, then decide the next list page. -/
def handleListPage (cfg : RunOptions) (st : CrawlState) (pageNo : Nat) (pv : PageView)
    (currentUrl : String) : ListStepResult :=
  if cfg.resultsWanted ≤ st.saved then ⟨st, [], 0, none⟩
  else
    let uniqueLinks := extractJobLinks pv.anchorHrefs
    if uniqueLinks = [] then ⟨st, [], 0, none⟩
    else
      let remaining := cfg.resultsWanted - st.saved
      let chosen := (uniqueLinks.take remaining).filter (fun l => l ∉ st.seen)
      let seen2 := st.seen ++ chosen
      let saved2 := if cfg.collectDetails then st.saved else st.saved + chosen.length
      let st2 : CrawlState := ⟨saved2, seen2⟩
      let nxt := (nextPageCheerio pv currentUrl pageNo saved2 cfg.resultsWanted cfg.maxPages).map
        (fun u => (pageNo + 1, u))
      { state := st2
        enqueuedDetails := if cfg.collectDetails then chosen else []
        pushedRecords := if cfg.collectDetails then 0 else chosen.length
        nextListPage := nxt }

/-- Embeds the budget bookkeeping of the DETAIL branch of the HTTP-Cheerio
request handler, src/src/main.js lines 362-547: skip when the target is
reached, otherwise push exactly one record and increment saved.  The extracted
field contents are irrelevant to the counting and are not part of this
state-transition view. -/
def handleDetailPage (cfg : RunOptions) (st : CrawlState) : CrawlState × Nat :=
  if cfg.resultsWanted ≤ st.saved then (st, 0)
  else (⟨st.saved + 1, st.seen⟩, 1)

/-- One handler invocation of the crawler: a LIST page with its page number,
current URL and page content, or a DETAIL page. -/
inductive CrawlEvent
  | listPage (pageNo : Nat) (currentUrl : String) (pv : PageView)
  | detailPage
deriving DecidableEq

/-- Run of a list of handler invocations composed whole, one after another:
the fully serialized schedule view, returning the final state and the total
number of records pushed to the sink.  The source does not guarantee this
view for the budget counter: handlers interleave at await points, and the
budget guard and the saved increment straddle the awaited sink push, which
runDetailSchedule below models.  The seen-set recording and the
dedupe-field independence examined with this function are per-invocation
facts that do not depend on the schedule. -/
def runCrawl (cfg : RunOptions) : List CrawlEvent → CrawlState → CrawlState × Nat
  | [], st => (st, 0)
  | .listPage pageNo u pv :: es, st =>
    let r := handleListPage cfg st pageNo pv u
    let rest := runCrawl cfg es r.state
    (rest.1, r.pushedRecords + rest.2)
  | .detailPage :: es, st =>
    let d := handleDetailPage cfg st
    let rest := runCrawl cfg es d.1
    (rest.1, d.2 + rest.2)

/-- A run of the crawler as a function of the raw actor input: the behaviour
depends on the input only through the destructured options. -/
def runFromInput (inp : ActorInput) (es : List CrawlEvent) : CrawlState × Nat :=
  runCrawl (parseRunOptions inp) es ⟨0, []⟩

/-- The chain of list-page URLs fetched for one seed in the HTTP-Cheerio
variant: page pageNo at the given URL is fetched, and a further page is
fetched exactly when the pagination decision produces one.  The oracle gives,
for each page number and URL, the page view seen there and the value of the
shared saved counter at pagination time.  The bound check pageNo less than mp
duplicates the guard already inside nextPageCheerio and exists only to make
the recursion well-founded. -/
def seedTrace (oracle : Nat → String → PageView × Nat) (rw mp : Nat) :
    Nat → String → List String
  | pageNo, u =>
    u :: (if _h : pageNo < mp then
            match nextPageCheerio (oracle pageNo u).1 u pageNo (oracle pageNo u).2 rw mp with
            | some v => seedTrace oracle rw mp (pageNo + 1) v
            | none => []
          else [])
termination_by pageNo _ => mp - pageNo
decreasing_by omega

/-- The per-URL seen-set test-and-insert performed by every variant (the
filter on seenUrls.has followed by seenUrls.add, src/src/main.js lines
273-277 and src/unnamed/part_001 lines 229-230): the Bool is the outcome of
the membership test negation (true means the URL is fresh and is now
recorded), and the list is the updated seen set. -/
def admitUrl (seen : List String) (u : String) : Bool × List String :=
  if u ∈ seen then (false, seen) else (true, seen ++ [u])

/-- The number of calls in the given call sequence that are made with URL u
and return true, when the test-and-inserts run left to right from the given
seen set. -/
def admitTrueCount (seen : List String) (calls : List String) (u : String) : Nat :=
  match calls with
  | [] => 0
  | v :: vs =>
    let r := admitUrl seen v
    (if v = u ∧ r.1 = true then 1 else 0) + admitTrueCount r.2 vs u

/-- A structured base-salary value object from a JSON-LD JobPosting block, the
shape read at src/src/main.js lines 429-432: numeric fields are optional JS
numbers (modelled as naturals, since the rendering only stringifies them), and
currency and unit text are optional strings. -/
structure SalaryValue where
  value : Option Nat := none
  minValue : Option Nat := none
  maxValue : Option Nat := none
  currency : Option String := none
  unitText : Option String := none
deriving DecidableEq

/-- A JSON-LD baseSalary node: either a bare string or an object with an
optional value object and optional top-level currency and unit text. -/
inductive BaseSalary
  | str (s : String)
  | obj (value : Option SalaryValue) (currency : Option String) (unitText : Option String)
deriving DecidableEq

/-- JS truthiness on an optional number: absent and zero are falsy. -/
def truthyNat : Option Nat → Option Nat
  | some 0 => none
  | some n => some n
  | none => none

/-- First truthy value among the candidates, the JS or-chain. -/
def firstTruthyNat (l : List (Option Nat)) : Option Nat :=
  match l with
  | [] => none
  | o :: rest =>
    match truthyNat o with
    | some n => some n
    | none => firstTruthyNat rest

/-- First truthy string among the candidates, the JS or-chain. -/
def firstTruthyStr (l : List (Option String)) : Option String :=
  match l with
  | [] => none
  | o :: rest =>
    match truthyStr o with
    | some s => some s
    | none => firstTruthyStr rest

/-- Embeds the baseSalary mapping of the HTTP-Cheerio variant,
src/src/main.js lines 424-439: a truthy bare string is taken verbatim; for an
object, the amount is the first truthy of value, minValue, maxValue, the
currency the first truthy of the value currency and the node currency, the
unit text likewise, and the parts amount, currency, parenthesized unit text
are joined with single spaces; an empty join yields null.  The none input is
a falsy baseSalary field, skipped by the truthiness guard. -/
def salaryCheerio : Option BaseSalary → Option String
  | none => none
  | some (.str s) => if s = "" then none else some s
  | some (.obj v c u) =>
    let val := v.getD {}
    let amount := firstTruthyNat [val.value, val.minValue, val.maxValue]
    let currency := firstTruthyStr [val.currency, c]
    let unitText := firstTruthyStr [val.unitText, u]
    let parts := (match amount with | some n => [toString n] | none => [])
              ++ (match currency with | some s => [s] | none => [])
              ++ (match unitText with | some s => ["(" ++ s ++ ")"] | none => [])
    if parts = [] then none else some (String.intercalate " " parts)

/-- Embeds the baseSalary mapping of the production Playwright variant,
src/unnamed/part_000 lines 481-494: dollar-prefixed truthy minValue, then
dollar-prefixed truthy maxValue, then the truthy node-level currency, then the
lower-cased truthy unit text behind the word per, all joined with the
three-character separator space-hyphen-space; an empty join yields null. -/
def salaryProdPlaywright : Option BaseSalary → Option String
  | none => none
  | some (.str s) => if s = "" then none else some s
  | some (.obj v c _) =>
    let val := v.getD {}
    let parts := (match truthyNat val.minValue with
                  | some n => ["$" ++ toString n] | none => [])
              ++ (match truthyNat val.maxValue with
                  | some n => ["$" ++ toString n] | none => [])
              ++ (match truthyStr c with | some s => [s] | none => [])
              ++ (match truthyStr val.unitText with
                  | some s => ["per " ++ String.mk (jsToLower s.data)] | none => [])
    if parts = [] then none else some (String.intercalate " - " parts)

/-- Model of the markup-to-text extraction that the Cheerio wrapper performs
on a description fragment (src/src/main.js lines 516-520): characters between
an opening and the next closing angle bracket are tag data and are dropped,
everything else is text.  Entity decoding and the HTML5 tokenizer special
cases are not modelled.  The Bool flag is true while inside a tag. -/
def stripTagsAux : Bool → List Char → List Char
  | _, [] => []
  | false, c :: r => if c = '<' then stripTagsAux true r else c :: stripTagsAux false r
  | true, c :: r => if c = '>' then stripTagsAux false r else stripTagsAux true r

/-- Text content of a markup fragment. -/
def stripTags (s : String) : String := String.mk (stripTagsAux false s.data)

/-- Embeds the clean helper of src/src/main.js line 447: a falsy (empty)
input yields null, otherwise trim then collapse every whitespace run to a
single space. -/
def clean (t : String) : Option String :=
  if t = "" then none
  else some (String.mk (replaceWsRuns ' ' (jsTrimList t.data)))

/-- Embeds the description-text derivation of src/src/main.js lines 512-522:
nothing when description markup is absent (or empty, by the truthiness
guard), otherwise clean applied to the text content of the markup. -/
def deriveDescriptionText : Option String → Option String
  | none => none
  | some h => if h = "" then none else clean (stripTags h)

/-- The property that a character list contains no two adjacent whitespace
characters. -/
def noTwoWs : List Char → Prop
  | [] => True
  | [_] => True
  | a :: b :: r => ¬(isJsSpace a = true ∧ isJsSpace b = true) ∧ noTwoWs (b :: r)

/-! ### General lemmas about the helper functions -/

theorem mem_dedupAux {l acc : List String} {x : String} (h : x ∈ dedupAux l acc) : x ∈ l := by
  induction l generalizing acc with
  | nil => simp [dedupAux] at h
  | cons y ys ih =>
    rw [dedupAux] at h
    by_cases hy : y ∈ acc
    · simp only [if_pos hy] at h
      exact List.mem_cons_of_mem _ (ih h)
    · simp only [if_neg hy, List.mem_cons] at h
      rcases h with h | h
      · exact h ▸ List.mem_cons_self _ _
      · exact List.mem_cons_of_mem _ (ih h)

theorem dedupAux_nodup (l : List String) :
    ∀ acc, (dedupAux l acc).Nodup ∧ ∀ x ∈ dedupAux l acc, x ∉ acc := by
  induction l with
  | nil => intro acc; simp [dedupAux]
  | cons y ys ih =>
    intro acc
    rw [dedupAux]
    by_cases hy : y ∈ acc
    · simpa [if_pos hy] using ih acc
    · simp only [if_neg hy]
      refine ⟨List.nodup_cons.mpr ⟨fun hmem => ?_, (ih (y :: acc)).1⟩, ?_⟩
      · exact ((ih (y :: acc)).2 y hmem) (List.mem_cons_self _ _)
      · intro x hx
        rcases List.mem_cons.mp hx with rfl | hx2
        · exact hy
        · exact fun hacc => (ih (y :: acc)).2 x hx2 (List.mem_cons_of_mem _ hacc)

theorem dedupKeepFirst_nodup (l : List String) : (dedupKeepFirst l).Nodup :=
  (dedupAux_nodup l []).1

theorem mem_jsTrimList {l : List Char} {c : Char} (h : c ∈ jsTrimList l) : c ∈ l := by
  unfold jsTrimList at h
  rw [List.mem_reverse] at h
  have h2 := (List.dropWhile_sublist isJsSpace).subset h
  rw [List.mem_reverse] at h2
  exact (List.dropWhile_sublist isJsSpace).subset h2

theorem mem_replaceWsRunsAux {rep : Char} {b : Bool} {l : List Char} {c : Char}
    (h : c ∈ replaceWsRunsAux rep b l) : c = rep ∨ (c ∈ l ∧ isJsSpace c = false) := by
  induction l generalizing b with
  | nil => rw [replaceWsRunsAux] at h; cases h
  | cons d r ih =>
    rw [replaceWsRunsAux] at h
    by_cases hd : isJsSpace d
    · rw [if_pos hd] at h
      cases b with
      | true =>
        rcases ih (by simpa using h) with h1 | ⟨h1, h2⟩
        · exact Or.inl h1
        · exact Or.inr ⟨List.mem_cons_of_mem _ h1, h2⟩
      | false =>
        have h3 : c = rep ∨ c ∈ replaceWsRunsAux rep true r := by simpa using h
        rcases h3 with rfl | h3
        · exact Or.inl rfl
        · rcases ih h3 with h1 | ⟨h1, h2⟩
          · exact Or.inl h1
          · exact Or.inr ⟨List.mem_cons_of_mem _ h1, h2⟩
    · rw [if_neg hd] at h
      rcases List.mem_cons.mp h with rfl | h
      · exact Or.inr ⟨List.mem_cons_self _ _, by simpa using hd⟩
      · rcases ih h with h1 | ⟨h1, h2⟩
        · exact Or.inl h1
        · exact Or.inr ⟨List.mem_cons_of_mem _ h1, h2⟩

theorem replaceWsRunsAux_head_true (l : List Char) :
    isJsSpace ((replaceWsRunsAux ' ' true l).headD 'a') = false := by
  induction l with
  | nil => decide
  | cons d r ih =>
    rw [replaceWsRunsAux]
    by_cases hd : isJsSpace d
    · rw [if_pos hd]; exact ih
    · rw [if_neg hd]; simpa using hd

theorem noTwoWs_cons_of {a : Char} {l : List Char}
    (h1 : isJsSpace a = false ∨ isJsSpace (l.headD 'a') = false) (h2 : noTwoWs l) :
    noTwoWs (a :: l) := by
  cases l with
  | nil => trivial
  | cons b r =>
    refine ⟨fun hab => ?_, h2⟩
    rcases h1 with h1 | h1
    · rw [hab.1] at h1; cases h1
    · simp only [List.headD_cons] at h1
      rw [hab.2] at h1; cases h1

theorem noTwoWs_replaceWsRunsAux (l : List Char) :
    ∀ b, noTwoWs (replaceWsRunsAux ' ' b l) := by
  induction l with
  | nil => intro b; trivial
  | cons d r ih =>
    intro b
    rw [replaceWsRunsAux]
    by_cases hd : isJsSpace d
    · rw [if_pos hd]
      cases b with
      | true => exact ih true
      | false =>
        exact noTwoWs_cons_of (Or.inr (replaceWsRunsAux_head_true r)) (ih true)
    · rw [if_neg hd]
      refine noTwoWs_cons_of (Or.inl (by simpa using hd)) (ih false)

theorem stripTagsAux_no_lt (l : List Char) : ∀ b, '<' ∉ stripTagsAux b l := by
  induction l with
  | nil => intro b; simp [stripTagsAux]
  | cons c r ih =>
    intro b
    cases b with
    | false =>
      rw [stripTagsAux]
      by_cases hc : c = '<'
      · rw [if_pos hc]; exact ih true
      · rw [if_neg hc]
        intro hmem
        rcases List.mem_cons.mp hmem with h | h
        · exact hc h.symm
        · exact ih false h
    | true =>
      rw [stripTagsAux]
      by_cases hc : c = '>'
      · rw [if_pos hc]; exact ih false
      · rw [if_neg hc]; exact ih true

theorem takeWhile_isPrefix_mono {q : Char → Bool} {p l : List Char}
    (hall : ∀ c ∈ p, q c = true) (hpre : p <+: l) : p <+: l.takeWhile q := by
  induction p generalizing l with
  | nil => exact List.nil_prefix
  | cons c p' ih =>
    obtain ⟨t, rfl⟩ := hpre
    rw [List.cons_append, List.takeWhile_cons, hall c (List.mem_cons_self _ _)]
    simp only [if_true]
    obtain ⟨s, hs⟩ := ih (fun d hd => hall d (List.mem_cons_of_mem _ hd)) ⟨t, rfl⟩
    exact ⟨s, by rw [List.cons_append, hs]⟩

theorem admitTrueCount_eq (calls : List String) :
    ∀ (seen : List String) (u : String),
      admitTrueCount seen calls u = if u ∈ seen then 0 else if u ∈ calls then 1 else 0 := by
  induction calls with
  | nil =>
    intro seen u
    by_cases h : u ∈ seen <;> simp [admitTrueCount, h]
  | cons v vs ih =>
    intro seen u
    rw [admitTrueCount]
    by_cases hs : u ∈ seen
    · rw [if_pos hs]
      by_cases hv : v ∈ seen
      · simp only [admitUrl, if_pos hv]
        simp [ih seen u, hs]
      · simp only [admitUrl, if_neg hv]
        have hne : v ≠ u := fun e => hv (e ▸ hs)
        have hm : u ∈ seen ++ [v] := List.mem_append_left _ hs
        simp [hne, ih (seen ++ [v]) u, hm]
    · rw [if_neg hs]
      by_cases hvu : v = u
      · subst hvu
        simp only [admitUrl, if_neg hs]
        have hm : v ∈ seen ++ [v] := List.mem_append_right _ (List.mem_singleton.mpr rfl)
        simp [ih (seen ++ [v]) v, hm]
      · by_cases hv : v ∈ seen
        · simp only [admitUrl, if_pos hv]
          simp [hvu, ih seen u, hs, Ne.symm hvu]
        · simp only [admitUrl, if_neg hv]
          have hus : u ∉ seen ++ [v] := by
            intro hm
            rcases List.mem_append.mp hm with h | h
            · exact hs h
            · exact hvu (List.mem_singleton.mp h).symm
          simp [hvu, ih (seen ++ [v]) u, hus, Ne.symm hvu]

/-! ### Claim C3 -/

/-- Claim C3: within a single run the seen-set test-and-insert returns true
exactly once for any given URL and false on every repeat.  First conjunct: in
any left-to-right sequence of test-and-inserts, the number of calls on a URL u
that return true is exactly one when u is called at least once and was not
already seen, and zero otherwise.  Second conjunct: a call on an
already-recorded URL returns false and leaves the seen set unchanged.  Third
conjunct: the first call on a fresh URL returns true and records it. -/
theorem C3_admit_exactly_once :
    (∀ (seen calls : List String) (u : String),
        admitTrueCount seen calls u
          = if u ∈ seen then 0 else if u ∈ calls then 1 else 0) ∧
    (∀ (seen : List String) (u : String), u ∈ seen → admitUrl seen u = (false, seen)) ∧
    (∀ (seen : List String) (u : String), u ∉ seen →
        (admitUrl seen u).1 = true ∧ u ∈ (admitUrl seen u).2) := by
  refine ⟨fun seen calls u => admitTrueCount_eq calls seen u, ?_, ?_⟩
  · intro seen u h
    simp [admitUrl, h]
  · intro seen u h
    simp [admitUrl, h]

/-- Witness for C3 at concrete inputs: the URL a is admitted exactly once in
the call sequence a, b, a even starting from an empty seen set, and a repeat
call on an already-seen URL returns false. -/
theorem C3_witness :
    admitTrueCount [] ["a", "b", "a"] "a" = 1 ∧ admitUrl ["a"] "a" = (false, ["a"]) := by
  constructor
  · have h := C3_admit_exactly_once.1 [] ["a", "b", "a"] "a"
    simpa using h
  · exact C3_admit_exactly_once.2.1 ["a"] "a" (by decide)

/-! ### Claim C9 -/

/-- Claim C9: every description text derived from a description markup
fragment contains no markup tags (no tag-opening angle bracket survives) and
has every whitespace run collapsed to a single space (every whitespace
character in it is a plain space and no two adjacent characters are both
whitespace). -/
theorem C9_description_text_clean (dh : Option String) (t : String)
    (h : deriveDescriptionText dh = some t) :
    '<' ∉ t.data ∧ (∀ c ∈ t.data, isJsSpace c = true → c = ' ') ∧ noTwoWs t.data := by
  cases dh with
  | none => simp [deriveDescriptionText] at h
  | some s =>
    rw [deriveDescriptionText] at h
    by_cases hs : s = ""
    · rw [if_pos hs] at h; cases h
    · rw [if_neg hs] at h
      rw [clean] at h
      by_cases hts : stripTags s = ""
      · rw [if_pos hts] at h; cases h
      · rw [if_neg hts] at h
        have ht : t = String.mk (replaceWsRuns ' ' (jsTrimList (stripTags s).data)) := by
          injection h with h2; exact h2.symm
        subst ht
        refine ⟨?_, ?_, ?_⟩
        · intro hmem
          rcases mem_replaceWsRunsAux hmem with h1 | ⟨h1, _⟩
          · exact absurd h1 (by decide)
          · exact stripTagsAux_no_lt s.data false (mem_jsTrimList h1)
        · intro c hc hws
          rcases mem_replaceWsRunsAux hc with h1 | ⟨_, h2⟩
          · exact h1
          · rw [h2] at hws; cases hws
        · exact noTwoWs_replaceWsRunsAux _ false

/-- Witness for C9 at a concrete markup fragment with a tag and a whitespace
run: the derived text is Hello and world separated by one space, and the
properties hold of it. -/
theorem C9_witness :
    deriveDescriptionText (some "<p>Hello   world</p>") = some "Hello world" ∧
    '<' ∉ "Hello world".data ∧ noTwoWs "Hello world".data := by
  refine ⟨by decide, ?_, ?_⟩
  · exact (C9_description_text_clean (some "<p>Hello   world</p>") "Hello world" (by decide)).1
  · exact (C9_description_text_clean (some "<p>Hello   world</p>") "Hello world" (by decide)).2.2

/-! ### Claim C6 -/

/-- The structured base salary of the C6 scenario: value with minValue 80000,
maxValue 100000 and unit text YEAR, no currency anywhere. -/
def claimSalaryInput : Option BaseSalary :=
  some (.obj (some { minValue := some 80000, maxValue := some 100000, unitText := some "YEAR" })
    none none)

/-- Counterexample to claim C6: on the claimed scenario input neither variant
renders the claimed string.  The HTTP-Cheerio variant renders only the first
truthy of value, minValue, maxValue, so its output does not even mention the
upper bound 100000. -/
theorem C6_counterexample :
    salaryCheerio claimSalaryInput ≠ some "$80,000 - $100,000 per year" ∧
    salaryProdPlaywright claimSalaryInput ≠ some "$80,000 - $100,000 per year" ∧
    strContains ((salaryCheerio claimSalaryInput).getD "") "100" = false := by
  refine ⟨by decide, by decide, by decide⟩

/-- Claim C6 as amended: on the scenario input the HTTP-Cheerio variant
renders the salary as 80000 (YEAR), the amount being the first truthy of
value, minValue, maxValue followed by the parenthesized unit text, while the
production Playwright variant renders the dollar-prefixed bounds and the
lower-cased unit text joined by space-hyphen-space. -/
theorem C6_salary_amended :
    salaryCheerio claimSalaryInput = some "80000 (YEAR)" ∧
    salaryProdPlaywright claimSalaryInput = some "$80000 - $100000 - per year" := by
  refine ⟨by decide, by decide⟩

/-! ### Claim C1 -/

/-- The scheduler-visible state of the budget race in the DETAIL branch of
the HTTP-Cheerio request handler: the shared saved counter, the number of
records pushed to the sink so far, and the number of handlers suspended at
the awaited sink push. -/
structure ConcState where
  saved : Nat
  pushed : Nat
  pendingPushes : Nat
deriving DecidableEq

/-- One scheduling step of a DETAIL handler invocation, src/src/main.js lines
362-547.  A start step runs the synchronous prefix of one handler: the budget
guard at line 367 reads the shared saved counter and aborts when it has
reached RESULTS_WANTED; otherwise the record is extracted and handed to the
sink at line 541, and the handler suspends at that awaited push.  A finish
step resumes one suspended handler past the await: only then is saved
incremented, at line 542.  The guard read and the increment therefore
straddle the suspension point, and the crawler runs up to twenty handlers
concurrently (maxConcurrency at line 165). -/
inductive DetailStep
  | start
  | finish
deriving DecidableEq

/-- Effect of one scheduling step on the shared state. -/
def detailStepRun (rw : Nat) (st : ConcState) : DetailStep → ConcState
  | .start =>
    if rw ≤ st.saved then st
    else { st with pushed := st.pushed + 1, pendingPushes := st.pendingPushes + 1 }
  | .finish =>
    match st.pendingPushes with
    | 0 => st
    | p + 1 => { st with saved := st.saved + 1, pendingPushes := p }

/-- A run of DETAIL handler steps under a given schedule, left to right. -/
def runDetailSchedule (rw : Nat) : List DetailStep → ConcState → ConcState
  | [], st => st
  | s :: ss, st => runDetailSchedule rw ss (detailStepRun rw st s)

/-- Claim C1 states the intended invariant of the specification, which the
code violates under its own concurrency: with results-wanted one and two
detail handlers in flight (two fresh URLs enqueued from two list pages), the
interleaving in which both handlers pass the budget guard at saved zero
before either completes the awaited sink push leads to two records pushed,
exceeding results-wanted.  The fully serialized schedule of the same two
handlers pushes exactly one record, so the overshoot comes precisely from
the guard read and the saved increment straddling the awaited push. -/
theorem C1_budget_race :
    (runDetailSchedule 1 [.start, .start, .finish, .finish] ⟨0, 0, 0⟩).pushed = 2 ∧
    ¬ (runDetailSchedule 1 [.start, .start, .finish, .finish] ⟨0, 0, 0⟩).pushed ≤ 1 ∧
    (runDetailSchedule 1 [.start, .finish, .start, .finish] ⟨0, 0, 0⟩).pushed = 1 := by
  refine ⟨by decide, by decide, by decide⟩

/-! ### Claim C2 -/

theorem seedTrace_length_le (oracle : Nat → String → PageView × Nat) (rw mp : Nat) :
    ∀ (k pageNo : Nat) (u : String), mp - pageNo ≤ k →
      (seedTrace oracle rw mp pageNo u).length ≤ mp - pageNo + 1 := by
  intro k
  induction k with
  | zero =>
    intro pageNo u hk
    rw [seedTrace]
    rw [dif_neg (by omega : ¬ pageNo < mp)]
    simp
  | succ k ih =>
    intro pageNo u hk
    rw [seedTrace]
    by_cases h : pageNo < mp
    · rw [dif_pos h]
      cases hnp : nextPageCheerio (oracle pageNo u).1 u pageNo (oracle pageNo u).2 rw mp with
      | none => simp
      | some v =>
        simp only [List.length_cons]
        have h2 := ih (pageNo + 1) v (by omega)
        omega
    · rw [dif_neg h]; simp

/-- Counterexample to claim C2 as stated: the paginator can return null even
though neither stop condition holds.  Here the current URL already carries the
page parameter with value two while the handler believes it is on page one, no
next link of either kind is present, and the constructed candidate equals the
current URL, so null is returned although saved 0 is below results-wanted 100
and page 1 is below max-pages 10 - refuting the claimed exactly-when. -/
theorem C2_counterexample :
    nextPageCheerio {} "https://www.careerone.com.au/jobs?page=2" 1 0 100 10 = none
      ∧ (0 : Nat) < 100 ∧ (1 : Nat) < 10 := by
  refine ⟨by decide, by decide, by decide⟩

/-- Claim C2 as amended: the paginator returns null whenever savedCount is at
least resultsWanted or pageNo is at least maxPages (though it may also return
null when no strategy yields a URL distinct from the current one), and the
chain of list pages fetched for one seed, which starts at page one, has length
at most max-pages. -/
theorem C2_paginator_stop :
    (∀ (pv : PageView) (u : String) (pageNo saved rw mp : Nat),
        rw ≤ saved ∨ mp ≤ pageNo → nextPageCheerio pv u pageNo saved rw mp = none) ∧
    (∀ (oracle : Nat → String → PageView × Nat) (rw mp : Nat) (u : String),
        1 ≤ mp → (seedTrace oracle rw mp 1 u).length ≤ mp) := by
  constructor
  · intro pv u pageNo saved rw mp h
    unfold nextPageCheerio
    rw [if_neg (by omega : ¬ (saved < rw ∧ pageNo < mp))]
  · intro oracle rw mp u h
    have h2 := seedTrace_length_le oracle rw mp (mp - 1) 1 u (le_refl _)
    omega

/-- Witness for C2 at concrete inputs: the stop direction with the budget
reached, and a three-page trace bounded by max-pages three. -/
theorem C2_witness :
    nextPageCheerio {} "https://www.careerone.com.au/jobs/in-australia" 3 7 5 10 = none ∧
    (seedTrace (fun _ _ => ({}, 0)) 5 3 1
        "https://www.careerone.com.au/jobs/in-australia").length ≤ 3 := by
  constructor
  · exact C2_paginator_stop.1 {} _ 3 7 5 10 (Or.inl (by decide))
  · exact C2_paginator_stop.2 (fun _ _ => ({}, 0)) 5 3 _ (by decide)

/-! ### Claim C7 -/

/-- Counterexample to claim C7 as stated: in the simple Playwright variant the
constructed fallback enqueues the page-parameter URL whenever a next element
is present, with no comparison against the current URL.  Here the constructed
URL equals the current URL and is returned anyway, refuting the only-if-it-
differs clause. -/
theorem C7_counterexample :
    setPageParam "https://www.careerone.com.au/jobs?page=2" (1 + 1)
        = "https://www.careerone.com.au/jobs?page=2" ∧
    nextPagePlaywrightSimple true "https://www.careerone.com.au/jobs?page=2" 1 0 5 10
        = some "https://www.careerone.com.au/jobs?page=2" := by
  refine ⟨by decide, by decide⟩

/-- Claim C7 as amended: in the HTTP-Cheerio variant, when the budget allows
and neither a rel-next nor a next-text link is present, the paginator returns
the constructed page-parameter URL exactly when it differs from the current
URL and null (not an error) otherwise, so any URL it does return under those
conditions is distinct from the current one; the simple Playwright variant
instead returns the constructed URL whenever a next element is present,
without the distinctness check. -/
theorem C7_fallback_amended :
    (∀ (pv : PageView) (u : String) (pageNo saved rw mp : Nat),
        saved < rw → pageNo < mp →
        truthyStr pv.relNextHref = none → truthyStr pv.textNextHref = none →
        nextPageCheerio pv u pageNo saved rw mp
          = if setPageParam u (pageNo + 1) ≠ u then some (setPageParam u (pageNo + 1)) else none) ∧
    (∀ (pv : PageView) (u v : String) (pageNo saved rw mp : Nat),
        truthyStr pv.relNextHref = none → truthyStr pv.textNextHref = none →
        nextPageCheerio pv u pageNo saved rw mp = some v → v ≠ u) ∧
    (∀ (u : String) (pageNo saved rw mp : Nat),
        saved < rw → pageNo < mp →
        nextPagePlaywrightSimple true u pageNo saved rw mp
          = some (setPageParam u (pageNo + 1))) := by
  refine ⟨?_, ?_, ?_⟩
  · intro pv u pageNo saved rw mp h1 h2 hr ht
    unfold nextPageCheerio
    rw [if_pos ⟨h1, h2⟩, hr, ht]
  · intro pv u v pageNo saved rw mp hr ht hnp
    unfold nextPageCheerio at hnp
    by_cases hg : saved < rw ∧ pageNo < mp
    · rw [if_pos hg, hr, ht] at hnp
      by_cases hc : setPageParam u (pageNo + 1) ≠ u
      · rw [if_pos hc] at hnp
        injection hnp with h
        exact h ▸ hc
      · rw [if_neg hc] at hnp; cases hnp
    · rw [if_neg hg] at hnp; cases hnp
  · intro u pageNo saved rw mp h1 h2
    unfold nextPagePlaywrightSimple
    rw [if_pos ⟨h1, h2⟩, if_pos rfl]

/-- Witness for C7 at concrete inputs: the Cheerio fallback fires with a
distinct constructed URL, and the Playwright variant returns the constructed
URL when a next element exists. -/
theorem C7_witness :
    nextPageCheerio {} "https://www.careerone.com.au/jobs/in-australia" 1 0 5 10
      = some "https://www.careerone.com.au/jobs/in-australia?page=2" ∧
    nextPagePlaywrightSimple true "https://u.example" 1 0 5 10
      = some (setPageParam "https://u.example" 2) := by
  constructor
  · have h := C7_fallback_amended.1 {} "https://www.careerone.com.au/jobs/in-australia" 1 0 5 10
      (by decide) (by decide) rfl rfl
    rw [h]
    decide
  · exact C7_fallback_amended.2.2 "https://u.example" 1 0 5 10 (by decide) (by decide)

/-! ### Claim C4 -/

theorem strData_append (a b : String) : (a ++ b).data = a.data ++ b.data := rfl

theorem strStarts_self (p : String) : strStarts p p = true := by
  unfold strStarts
  exact decide_eq_true (List.prefix_refl _)

theorem strStarts_append (p r : String) : strStarts (p ++ r) p = true := by
  unfold strStarts
  rw [strData_append]
  exact decide_eq_true (List.prefix_append _ _)

theorem strAppend_assoc (a b c : String) : (a ++ b) ++ c = a ++ (b ++ c) := by
  cases a with | _ la =>
  cases b with | _ lb =>
  cases c with | _ lc =>
  show String.mk ((la ++ lb) ++ lc) = String.mk (la ++ (lb ++ lc))
  rw [List.append_assoc]

/-- Counterexample to claim C4 as stated: in the API-lite variant
(src/unnamed/part_001 lines 53-57) a configured direct url does not win over
startUrl - both seeds are used, with startUrl even coming first. -/
theorem C4_counterexample :
    initialUrlsApiLite
        { url := some "https://example.com/A", startUrl := some "https://example.com/B" }
      = ["https://example.com/B", "https://example.com/A"] ∧
    ("https://example.com/B" : String) ≠ "https://example.com/A" := by
  refine ⟨by decide, by decide⟩

/-- Claim C4 as amended: in the HTTP-Cheerio variant (and the production
Playwright and Puppeteer variants, which share the same chain) a direct url
wins over startUrl, which wins over startUrls, the resolved list is
deduplicated by exact match, the fatal configuration error is raised exactly
when no branch resolves a URL (a non-empty startUrls list of blank entries),
and the synthesized URL is used when no explicit seed is given; the API-lite
and simple Playwright variants instead concatenate startUrls, then startUrl,
then url, without deduplication, synthesizing only when all are absent. -/
theorem C4_url_priority_amended :
    (∀ (inp : ActorInput) (u : String),
        trimmedNonEmpty inp.url = some u → resolveInitialUrls inp = Except.ok [u]) ∧
    (∀ (inp : ActorInput) (u : String),
        trimmedNonEmpty inp.url = none → trimmedNonEmpty inp.startUrl = some u →
        resolveInitialUrls inp = Except.ok [u]) ∧
    (∀ (inp : ActorInput) (l : List String),
        resolveInitialUrls inp = Except.ok l → l.Nodup) ∧
    (resolveInitialUrls { startUrls := some ["", "   "] }
      = Except.error "No valid start URLs were provided or could be constructed.") ∧
    (∀ inp : ActorInput, inp.url = none → inp.startUrl = none → inp.startUrls = none →
        resolveInitialUrls inp
          = Except.ok [buildStartUrl inp.keyword inp.location inp.category]) ∧
    (∀ (inp : ActorInput) (su u : String),
        inp.startUrls = none → inp.startUrl = some su → su ≠ "" →
        inp.url = some u → u ≠ "" → initialUrlsApiLite inp = [su, u]) := by
  refine ⟨?_, ?_, ?_, rfl, ?_, ?_⟩
  · intro inp u h
    simp [resolveInitialUrls, rawInitialUrls, h, dedupKeepFirst, dedupAux]
  · intro inp u h1 h2
    simp [resolveInitialUrls, rawInitialUrls, h1, h2, dedupKeepFirst, dedupAux]
  · intro inp l h
    unfold resolveInitialUrls at h
    by_cases hd : dedupKeepFirst (rawInitialUrls inp) = []
    · rw [if_pos hd] at h; cases h
    · rw [if_neg hd] at h
      injection h with h
      exact h ▸ dedupKeepFirst_nodup (rawInitialUrls inp)
  · intro inp h1 h2 h3
    simp [resolveInitialUrls, rawInitialUrls, h1, h2, h3, trimmedNonEmpty,
      dedupKeepFirst, dedupAux]
  · intro inp su u h1 h2 h3 h4 h5
    simp [initialUrlsApiLite, h1, h2, h3, h4, h5]

/-- Witness for C4 at concrete inputs: a direct url (with surrounding
whitespace trimmed) wins in the Cheerio chain, while the API-lite assembly
keeps both seeds. -/
theorem C4_witness :
    resolveInitialUrls { url := some " https://e.com/A ", startUrl := some "https://e.com/B" }
      = Except.ok ["https://e.com/A"] ∧
    initialUrlsApiLite { url := some "https://e.com/A", startUrl := some "https://e.com/B" }
      = ["https://e.com/B", "https://e.com/A"] := by
  constructor
  · exact C4_url_priority_amended.1 _ "https://e.com/A" (by decide)
  · exact C4_url_priority_amended.2.2.2.2.2 _ "https://e.com/B" "https://e.com/A"
      rfl rfl (by decide) rfl (by decide)

/-! ### Claim C5 -/

/-- Counterexample to claim C5 as stated: on the claimed scenario the query
string carries keywords=data+analyst (URLSearchParams form encoding, space as
plus), not the claimed keywords=data%20analyst; moreover a whitespace-only
keyword, though empty after trimming, still attaches an empty-valued keywords
parameter, because the guard tests the raw value. -/
theorem C5_counterexample :
    buildStartUrl "data analyst" "Melbourne" ""
        = "https://www.careerone.com.au/jobs/in-melbourne?keywords=data+analyst" ∧
    strContains (buildStartUrl "data analyst" "Melbourne" "") "keywords=data%20analyst" = false ∧
    jsTrim "   " = "" ∧
    strContains (buildStartUrl "   " "" "") "keywords=" = true := by
  refine ⟨by decide, by decide, by decide, by decide⟩

/-- Claim C5 as amended: the scenario URL has the melbourne slug, a
keywords=data+analyst parameter (form-encoded, space as plus) and no category
parameter; an absent location yields the australia sentinel slug; every slug
character is in the a-z0-9-hyphen set; whitespace runs in the location become
single hyphens and other characters are stripped; keyword and category are
attached when the raw value is non-empty (a whitespace-only keyword yields an
empty-valued parameter), with trimmed values. -/
theorem C5_build_url_amended :
    buildStartUrl "data analyst" "Melbourne" ""
        = "https://www.careerone.com.au/jobs/in-melbourne?keywords=data+analyst" ∧
    strContains (buildStartUrl "data analyst" "Melbourne" "") "category" = false ∧
    (∀ kw category : String,
        strStarts (buildStartUrl kw "" category)
          "https://www.careerone.com.au/jobs/in-australia" = true) ∧
    (∀ (loc : String) (c : Char), c ∈ (slugify loc).data → isSlugChar c = true) ∧
    slugify "  Data  Analyst , NSW!  " = "data-analyst-nsw" ∧
    buildStartUrl "   " "" "" = "https://www.careerone.com.au/jobs/in-australia?keywords=" ∧
    buildStartUrl "x" "Melbourne" "it"
        = "https://www.careerone.com.au/jobs/in-melbourne?keywords=x&category=it" := by
  refine ⟨by decide, by decide, ?_, ?_, by decide, by decide, by decide⟩
  · intro kw category
    simp only [buildStartUrl, if_true]
    have hA2 : ("https://www.careerone.com.au/jobs/in-" ++ "australia")
        = "https://www.careerone.com.au/jobs/in-australia" := rfl
    split_ifs <;>
      first
        | (rw [hA2]; exact strStarts_self _)
        | (rw [hA2, strAppend_assoc]; exact strStarts_append _ _)
  · intro loc c hc
    exact (List.mem_filter.mp hc).2

/-- Witness for C5 at concrete inputs: the australia sentinel for an absent
location and a slug character test. -/
theorem C5_witness :
    strStarts (buildStartUrl "chef" "" "hospitality")
        "https://www.careerone.com.au/jobs/in-australia" = true ∧
    isSlugChar 'm' = true := by
  constructor
  · exact C5_build_url_amended.2.2.1 "chef" "hospitality"
  · exact C5_build_url_amended.2.2.2.1 "Melbourne" 'm' (by decide)

/-! ### Claim C8 -/

/-- Counterexample to claim C8 as stated: a run configured with dedupe false
still filters the repeated URL - the same detail URL discovered on two list
pages is pushed once, not processed again, because no variant reads a dedupe
option. -/
theorem C8_counterexample :
    (runFromInput { resultsWantedRaw := 5, collectDetails := false, dedupe := some false }
      [CrawlEvent.listPage 1 "https://www.careerone.com.au/jobs/in-australia"
          { anchorHrefs := ["/jobview/x"] },
       CrawlEvent.listPage 2 "https://www.careerone.com.au/jobs/in-australia?page=2"
          { anchorHrefs := ["/jobview/x"] }]).2 = 1 ∧
    ¬ (runFromInput { resultsWantedRaw := 5, collectDetails := false, dedupe := some false }
      [CrawlEvent.listPage 1 "https://www.careerone.com.au/jobs/in-australia"
          { anchorHrefs := ["/jobview/x"] },
       CrawlEvent.listPage 2 "https://www.careerone.com.au/jobs/in-australia?page=2"
          { anchorHrefs := ["/jobview/x"] }]).2 = 2 := by
  refine ⟨by decide, by decide⟩

/-- Claim C8 as amended: no variant destructures a dedupe key from the input,
so the parsed options and the whole run are invariant under the dedupe field,
and the seen-set enforcement is always on: a URL already in the seen set is
never enqueued again by a list page. -/
theorem C8_dedupe_amended :
    (∀ (inp : ActorInput) (b : Option Bool),
        parseRunOptions { inp with dedupe := b } = parseRunOptions inp) ∧
    (∀ (inp : ActorInput) (b : Option Bool) (es : List CrawlEvent),
        runFromInput { inp with dedupe := b } es = runFromInput inp es) ∧
    (∀ (cfg : RunOptions) (st : CrawlState) (pageNo : Nat) (pv : PageView) (cu l : String),
        l ∈ (handleListPage cfg st pageNo pv cu).enqueuedDetails → l ∉ st.seen) := by
  refine ⟨fun inp b => rfl, fun inp b es => rfl, ?_⟩
  intro cfg st pageNo pv cu l hl
  revert hl
  simp only [handleListPage]
  split_ifs with h1 h2 h3
  · intro hl; simp at hl
  · intro hl; simp at hl
  · intro hl
    exact of_decide_eq_true (List.mem_filter.mp hl).2
  · intro hl; simp at hl

/-- Witness for C8 at concrete inputs: invariance of the parsed options under
the dedupe field, and a URL in the seen set is not among the enqueued details
of a page that repeats it. -/
theorem C8_witness :
    parseRunOptions { ActorInput.mk "k" "l" "c" 7 3 true none none none none with
        dedupe := some false }
      = parseRunOptions (ActorInput.mk "k" "l" "c" 7 3 true none none none none) ∧
    ("https://www.careerone.com.au/jobview/x"
      ∉ (["https://www.careerone.com.au/jobview/y"] : List String)) := by
  constructor
  · exact C8_dedupe_amended.1 _ (some false)
  · exact C8_dedupe_amended.2.2 (parseRunOptions { resultsWantedRaw := 5 })
      ⟨0, ["https://www.careerone.com.au/jobview/y"]⟩ 1
      { anchorHrefs := ["/jobview/x", "/jobview/y"] }
      "https://www.careerone.com.au/jobs/in-australia"
      "https://www.careerone.com.au/jobview/x" (by decide)

/-! ### Claim C10 -/

theorem mapJobHref_shape {h u : String} (hm : mapJobHref h = some u) :
    strStarts u "http" = true ∧ '?' ∉ u.data := by
  unfold mapJobHref at hm
  by_cases h0 : h = ""
  · rw [if_pos h0] at hm; cases hm
  · rw [if_neg h0] at hm
    by_cases hh : strStarts h "http" = true
    · rw [if_pos hh] at hm
      injection hm with hm
      subst hm
      constructor
      · unfold strStarts at hh ⊢
        rw [decide_eq_true_eq] at hh ⊢
        exact takeWhile_isPrefix_mono (by decide) hh
      · intro hq
        have h2 := List.mem_takeWhile_imp hq
        simp at h2
    · rw [if_neg hh] at hm
      by_cases hs : strStarts h "/" = true
      · rw [if_pos hs] at hm
        injection hm with hm
        subst hm
        constructor
        · unfold strStarts
          rw [decide_eq_true_eq, strData_append]
          have h1 : ("http" : String).data <+: ("https://www.careerone.com.au" : String).data := by
            decide
          exact h1.trans (List.prefix_append _ _)
        · intro hq
          rw [strData_append] at hq
          rcases List.mem_append.mp hq with h2 | h2
          · exact absurd h2 (by decide)
          · have h3 := List.mem_takeWhile_imp h2
            simp at h3
      · rw [if_neg hs] at hm; cases hm

/-- Counterexample to claim C10 as stated: an anchor whose href is absolute
but off-site, with the jobview marker only inside its query string, passes
the attribute substring selector and is kept by the normalization, yet the
produced URL is not prefixed with the site origin and does not contain the
jobview segment. -/
theorem C10_counterexample :
    extractJobLinks ["http://evil.com/a?b=/jobview/c"] = ["http://evil.com/a"] ∧
    strStarts "http://evil.com/a" "https://www.careerone.com.au" = false ∧
    strContains "http://evil.com/a" "/jobview/" = false := by
  refine ⟨by decide, by decide, by decide⟩

/-- Claim C10 as amended: every URL produced by the link-scanning path starts
with http and has its query string stripped (no question mark survives);
anchors whose href starts with neither http nor slash are silently dropped;
root-relative hrefs are resolved against the site origin; and the produced
URL contains the jobview segment whenever the pre-query part of the href
does.  An absolute href is kept as is after query stripping, so it may point
off-site. -/
theorem C10_link_shape_amended :
    (∀ (hrefs : List String) (u : String), u ∈ extractJobLinks hrefs →
        strStarts u "http" = true ∧ '?' ∉ u.data) ∧
    (∀ h : String, strStarts h "http" = false → strStarts h "/" = false →
        mapJobHref h = none) ∧
    (∀ h : String, h ≠ "" → strStarts h "http" = false → strStarts h "/" = true →
        mapJobHref h = some ("https://www.careerone.com.au" ++ stripQuery h)) ∧
    (∀ h u : String, mapJobHref h = some u →
        strContains (stripQuery h) "/jobview/" = true → strContains u "/jobview/" = true) := by
  refine ⟨?_, ?_, ?_, ?_⟩
  · intro hrefs u hu
    have h1 := mem_dedupAux hu
    obtain ⟨h, _, hm⟩ := List.mem_filterMap.mp h1
    exact mapJobHref_shape hm
  · intro h hh hs
    unfold mapJobHref
    by_cases h0 : h = ""
    · rw [if_pos h0]
    · rw [if_neg h0, if_neg (by simp [hh]), if_neg (by simp [hs])]
  · intro h h0 hh hs
    unfold mapJobHref
    rw [if_neg h0, if_neg (by simp [hh]), if_pos hs]
  · intro h u hm hq
    unfold mapJobHref at hm
    by_cases h0 : h = ""
    · rw [if_pos h0] at hm; cases hm
    · rw [if_neg h0] at hm
      by_cases hh : strStarts h "http" = true
      · rw [if_pos hh] at hm
        injection hm with hm
        subst hm
        exact hq
      · rw [if_neg hh] at hm
        by_cases hs : strStarts h "/" = true
        · rw [if_pos hs] at hm
          injection hm with hm
          subst hm
          unfold strContains at hq ⊢
          rw [decide_eq_true_eq] at hq ⊢
          obtain ⟨s, t, hst⟩ := hq
          refine ⟨("https://www.careerone.com.au" : String).data ++ s, t, ?_⟩
          rw [strData_append, ← hst]
          simp [List.append_assoc]
        · rw [if_neg hs] at hm; cases hm

/-- Witness for C10 at concrete inputs: a root-relative jobview href with a
query string is admitted as the origin-prefixed query-stripped URL, which
starts with http, has no question mark, and keeps the jobview segment; an
href starting with neither http nor slash is dropped. -/
theorem C10_witness :
    strStarts "https://www.careerone.com.au/jobview/a" "http" = true ∧
    '?' ∉ "https://www.careerone.com.au/jobview/a".data ∧
    mapJobHref "jobview-relative.html" = none ∧
    mapJobHref "/jobview/a?p=1"
      = some ("https://www.careerone.com.au" ++ stripQuery "/jobview/a?p=1") ∧
    strContains "https://www.careerone.com.au/jobview/a" "/jobview/" = true := by
  have h1 := C10_link_shape_amended.1 ["/jobview/a?p=1"]
    "https://www.careerone.com.au/jobview/a" (by decide)
  refine ⟨h1.1, h1.2, ?_, ?_, ?_⟩
  · exact C10_link_shape_amended.2.1 "jobview-relative.html" (by decide) (by decide)
  · exact C10_link_shape_amended.2.2.1 "/jobview/a?p=1" (by decide) (by decide) (by decide)
  · exact C10_link_shape_amended.2.2.2 "/jobview/a?p=1" "https://www.careerone.com.au/jobview/a"
      (by decide) (by decide)

end Careerone
